import Mathlib

set_option maxHeartbeats 1000000
set_option linter.unusedVariables false

/-!
Verification development for the chameleon SOCKS5 gateway's upstream pool
core. Go code is shallowly embedded: structs become structures, Go maps
become association lists keyed by strings, `time.Now()` becomes an explicit
`now : Nat` parameter, goroutine-environment outcomes (I/O results of the
probe and the dial path) become explicit oracle parameters, and pointers
into the pool's record store become natural-number indices. Counters are
`Nat` with the Go `uint32` / `uint64` wrap made explicit where an increment
occurs.
-/

namespace Chameleon

/-- Embeds `config.ProxyDefinition` (config/proxy_definitions.go): one entry
of the desired-upstream snapshot. -/
structure ProxyDefinition where
  Address : String
  Username : String
  Password : String
  Tags : List String
  Description : String
  deriving DecidableEq, Repr

/-- Embeds `proxypool.ProxyConfig`: the mutable per-upstream record.
`LastCheck` is an instant, `ResponseTime` a duration, both as `Nat`.
The Go `SuccessCount`/`FailCount` are `uint32`; they are `Nat` here and
every increment is taken modulo `2 ^ 32` at the increment site. -/
structure ProxyConfig where
  Address : String
  Username : String
  Password : String
  Tags : List String
  Description : String
  IsActive : Bool
  LastCheck : Nat
  ResponseTime : Nat
  SuccessCount : Nat
  FailCount : Nat
  deriving DecidableEq, Repr

/-- Embeds `ProxyConfig.MarkActive` (proxypool/pool.go): sets the activity
flag, records the probe instant and the measured response time. -/
def ProxyConfig.MarkActive (pc : ProxyConfig) (responseTime : Nat) (now : Nat) :
    ProxyConfig :=
  { pc with IsActive := true, LastCheck := now, ResponseTime := responseTime }

/-- Embeds `ProxyConfig.MarkInactive` (proxypool/pool.go): clears the
activity flag and records the probe instant. The error argument is logged
by the Go code and otherwise discarded, which the body reflects. -/
def ProxyConfig.MarkInactive (pc : ProxyConfig) (checkErr : String) (now : Nat) :
    ProxyConfig :=
  { pc with IsActive := false, LastCheck := now }

/-- Embeds `equalStringSlices` (proxypool/checker.go): compares lengths,
builds a member set from `a`, then demands every element of `b` be in that
set. -/
def equalStringSlices (a b : List String) : Bool :=
  if a.length = b.length then b.all (fun v => a.contains v) else false

/-- Embeds `auth.ClientConfig` (auth/auth.go). -/
structure ClientConfig where
  Username : String
  Password : String
  Allowed : Bool
  deriving DecidableEq, Repr

/-- Generic association-list lookup, modelling Go map indexing `m[k]`. -/
def alookup {α : Type} (k : String) : List (String × α) → Option α
  | [] => none
  | (k2, v) :: rest => if k2 = k then some v else alookup k rest

/-- Generic association-list insert-or-replace, modelling Go map
assignment `m[k] = v`. -/
def ainsert {α : Type} (k : String) (v : α) : List (String × α) → List (String × α)
  | [] => [(k, v)]
  | (k2, v2) :: rest => if k2 = k then (k, v) :: rest else (k2, v2) :: ainsert k v rest

/-- Embeds `auth.MultiAuth`: the client credential map. -/
structure MultiAuth where
  clients : List (String × ClientConfig)
  deriving DecidableEq, Repr

/-- Embeds `MultiAuth.AddClient` (auth/auth.go). -/
def MultiAuth.AddClient (a : MultiAuth) (username password : String) (allowed : Bool) :
    MultiAuth :=
  ⟨ainsert username ⟨username, password, allowed⟩ a.clients⟩

/-- Embeds `MultiAuth.Valid` (auth/auth.go): lookup by username, reject on
missing client, on `Allowed = false`, or on password mismatch. The `addr`
parameter is received and never used, exactly as in the source. -/
def MultiAuth.Valid (a : MultiAuth) (username password addr : String) : Bool :=
  match alookup username a.clients with
  | none => false
  | some client =>
    if !client.Allowed then false
    else if client.Password != password then false
    else true

/-! ### Health-check probe (proxypool/checker.go, `checkProxy`) -/

/-- Oracle for the I/O outcomes of one probe invocation: the error (if any)
of SOCKS5 dialer construction, of `net.SplitHostPort` on the probe target,
of the tunnel dial (including deadline or cancellation), and of the TLS
handshake, plus the elapsed wall time measured on the success path. -/
structure ProbeEnv where
  dialerErr : Option String
  targetErr : Option String
  dialErr : Option String
  handshakeErr : Option String
  elapsed : Nat
  deriving DecidableEq, Repr

/-- Embeds `Pool.checkProxy` (proxypool/checker.go): each I/O failure path
logs, marks the record inactive and returns; the success path closes the
tunnel and marks the record active with the elapsed time. The Go function
returns nothing; the embedding returns the updated record. -/
def checkProxy (env : ProbeEnv) (now : Nat) (pc : ProxyConfig) : ProxyConfig :=
  match env.dialerErr with
  | some e => pc.MarkInactive e now
  | none =>
    match env.targetErr with
    | some e => pc.MarkInactive e now
    | none =>
      match env.dialErr with
      | some e => pc.MarkInactive e now
      | none =>
        match env.handshakeErr with
        | some e => pc.MarkInactive e now
        | none => pc.MarkActive env.elapsed now

/-! ### Per-upstream supervisor loop (proxypool/checker.go,
`healthCheckLoopForProxy`) -/

/-- One wake-up of the supervisor's `select`: either the periodic ticker
fires or the goroutine's context is cancelled. -/
inductive LoopEvent where
  | tick
  | cancel
  deriving DecidableEq, Repr

/-- Observable outcome of one supervisor run: how many times `checkProxy`
was invoked, and whether `time.NewTicker` was constructed. -/
structure LoopResult where
  probeCalls : Nat
  tickerCreated : Bool
  deriving DecidableEq, Repr

/-- The `for { select { ... } }` body: every delivered tick fires one probe;
the first cancellation returns. `probes` counts the probes already fired. -/
def runTickerLoop (probes : Nat) : List LoopEvent → Nat
  | [] => probes
  | .tick :: es => runTickerLoop (probes + 1) es
  | .cancel :: _ => probes

/-- Embeds `Pool.healthCheckLoopForProxy` (proxypool/checker.go): one
immediate probe; if `checkInterval <= 0`, log a warning and block on
`ctx.Done()` without constructing a ticker; otherwise construct the ticker
and run the select loop over the delivered events. `checkInterval` is a Go
`time.Duration`, an `Int` here. -/
def healthCheckLoopForProxy (checkInterval : Int) (events : List LoopEvent) :
    LoopResult :=
  if checkInterval ≤ 0 then
    { probeCalls := 1, tickerCreated := false }
  else
    { probeCalls := runTickerLoop 1 events, tickerCreated := true }

/-! ### Active selector (proxypool/pool.go, `GetActiveProxy`) -/

/-- The error message of the selector's failure case,
`errors.New("no active proxies available")`. -/
def noActiveProxiesError : String := "no active proxies available"

/-- The `activeProxies` slice built inside `GetActiveProxy`: pointers into
the pool store of those records whose `IsActive` is read as true. Pointers
are modelled as indices into the pool's record list. -/
def activeIdxs (ps : List ProxyConfig) : List Nat :=
  (List.range ps.length).filter fun i => (ps[i]?.elim false ProxyConfig.IsActive)

/-- Embeds `Pool.GetActiveProxy` (proxypool/pool.go): build the slice of
active records; fail with the no-active error when it is empty; otherwise
return the entry at `rand.Intn(len)`, whose uniform output is the oracle
`r` (reduced modulo the slice length so the function is total in `r`). -/
def GetActiveProxy (ps : List ProxyConfig) (r : Nat) : Except String Nat :=
  let active := activeIdxs ps
  if active.length = 0 then .error noActiveProxiesError
  else .ok (active.getD (r % active.length) 0)

/-! ### Dial orchestrator (Dialer.Dial) -/

/-- Go `uint64` counter increment, as performed by `atomic.AddUint64`. -/
def incr64 (c : Nat) : Nat := (c + 1) % 2 ^ 64

/-- Go `uint32` counter increment, as performed by `atomic.AddUint32`. -/
def incr32 (c : Nat) : Nat := (c + 1) % 2 ^ 32

/-- The dialer's global counters (`Metrics`): requests received, succeeded,
failed — `uint64` in Go. -/
structure Metrics where
  TotalRequests : Nat
  TotalSuccess : Nat
  TotalFailed : Nat
  deriving DecidableEq, Repr

/-- Oracle for the upstream dial race inside `Dial`: the goroutine delivers
a connection or an error, or the 15-second scope fires first. -/
inductive DialOutcome where
  | conn
  | dialFailed (e : String)
  | ctxDone
  deriving DecidableEq, Repr

/-- Oracle inputs of one `Dial` call: the selector's random draw, the
result of `px.SOCKS5` construction, and the dial race outcome. -/
structure DialEnv where
  r : Nat
  socksErr : Option String
  outcome : DialOutcome
  deriving DecidableEq, Repr

/-- Update the record at index `i` of the pool store, modelling a write
through a `*ProxyConfig` pointer. -/
def updAt : Nat → (ProxyConfig → ProxyConfig) → List ProxyConfig → List ProxyConfig
  | _, _, [] => []
  | 0, f, pc :: rest => f pc :: rest
  | i + 1, f, pc :: rest => pc :: updAt i f rest

/-- `atomic.AddUint32(&proxyCfg.FailCount, 1)`. -/
def incFail (pc : ProxyConfig) : ProxyConfig :=
  { pc with FailCount := incr32 pc.FailCount }

/-- `atomic.AddUint32(&proxyCfg.SuccessCount, 1)`. -/
def incSuccess (pc : ProxyConfig) : ProxyConfig :=
  { pc with SuccessCount := incr32 pc.SuccessCount }

/-- Embeds `Dialer.Dial` (dialer package): count the request; select an
active upstream, failing through on the selector's error; build the SOCKS5
dialer; race the upstream dial against the 15-second scope; account the
outcome globally and on the selected record. The connection value is not
modelled, so the success payload is `Unit`. Result: (returned value, pool
record store after the call, global counters after the call). -/
def Dialer.Dial (env : DialEnv) (ps : List ProxyConfig) (m : Metrics) :
    Except String Unit × List ProxyConfig × Metrics :=
  let m1 := { m with TotalRequests := incr64 m.TotalRequests }
  match GetActiveProxy ps env.r with
  | .error e => (.error e, ps, { m1 with TotalFailed := incr64 m1.TotalFailed })
  | .ok i =>
    match env.socksErr with
    | some e =>
      (.error e, updAt i incFail ps, { m1 with TotalFailed := incr64 m1.TotalFailed })
    | none =>
      match env.outcome with
      | .conn =>
        (.ok (), updAt i incSuccess ps,
          { m1 with TotalSuccess := incr64 m1.TotalSuccess })
      | .dialFailed e =>
        (.error e, updAt i incFail ps,
          { m1 with TotalFailed := incr64 m1.TotalFailed })
      | .ctxDone =>
        (.error "dialing timed out or was cancelled", updAt i incFail ps,
          { m1 with TotalFailed := incr64 m1.TotalFailed })

/-! ### Definitions loader (config/proxy_definitions.go, `LoadDefinitions`) -/

/-- Oracle for the filesystem and JSON parser seen by `readAndParse`: the
file is unreadable (stat or read error), present but empty, readable but
malformed JSON, or parses to a definitions slice. -/
inductive FileState where
  | unreadable (e : String)
  | emptyFile
  | malformed (e : String)
  | parsed (defs : List ProxyDefinition)
  deriving DecidableEq, Repr

/-- Embeds `readAndParse` (config/proxy_definitions.go): returns the error,
or a flag "the file data was empty" together with the parsed slice. -/
def readAndParse (fs : FileState) : Except String (Bool × List ProxyDefinition) :=
  match fs with
  | .unreadable e => .error e
  | .emptyFile => .ok (true, [])
  | .malformed e => .error e
  | .parsed defs => .ok (false, defs)

/-- The validation loop of `LoadDefinitions`: walk the slice with the
`seenAddrs` accumulator, failing on the first empty address or the first
address already seen. -/
def validateDefs (seen : List String) : List ProxyDefinition → Option String
  | [] => none
  | d :: rest =>
    if d.Address = "" then some "missing required field address"
    else if seen.contains d.Address then some "duplicate proxy address"
    else validateDefs (d.Address :: seen) rest

/-- Embeds `ProxyDefinitionsManager.LoadDefinitions`
(config/proxy_definitions.go): read and parse without the lock; on error
return it, keeping the stored definitions; on empty file store the empty
slice; otherwise validate (non-empty addresses, no duplicates) and swap the
new slice in only when validation passes. Result: (returned error if any,
stored definitions after the call). -/
def LoadDefinitions (fs : FileState) (stored : List ProxyDefinition) :
    Option String × List ProxyDefinition :=
  match readAndParse fs with
  | .error e => (some e, stored)
  | .ok (wasEmpty, defs) =>
    if wasEmpty then (none, [])
    else
      match validateDefs [] defs with
      | some e => (some e, stored)
      | none => (none, defs)

/-! ### Snapshot emitter (proxypool/pool.go, `GetProxiesSnapshot`)

The Go pool holds `map[string]*ProxyConfig`; the pointed-to records live in
a heap. The heap is a list of records, a `*ProxyConfig` is an index into
it, and the pool map is an association list from address to index. -/

/-- The store of `ProxyConfig` allocations. -/
structure Heap where
  cells : List ProxyConfig
  deriving DecidableEq, Repr

/-- Dereference a `*ProxyConfig`. -/
def Heap.deref (h : Heap) (p : Nat) : Option ProxyConfig := h.cells[p]?

/-- A probe's `MarkActive` performed through the pointer `p`: mutates the
pointed-to record in place. -/
def Heap.markActiveAt (h : Heap) (p : Nat) (responseTime now : Nat) : Heap :=
  ⟨updAt p (fun pc => pc.MarkActive responseTime now) h.cells⟩

/-- Embeds `Pool.GetProxiesSnapshot` (proxypool/pool.go): appends each
entry's `*ProxyConfig` pointer to a fresh slice and returns the slice. -/
def GetProxiesSnapshot (proxies : List (String × Nat)) : List Nat :=
  proxies.map Prod.snd

/-! ### Pool reconciler (proxypool/checker.go, `reloadAndReconcileProxies`)

The supervisor goroutine attached to a record is modelled by a numeric
supervisor id: starting a supervisor hands out a fresh id from a counter,
and cancelling one appends its id to the list of cancelled supervisors. -/

/-- A live map entry: the record together with its supervisor handle. -/
structure SupRecord where
  cfg : ProxyConfig
  supId : Nat
  deriving DecidableEq, Repr

/-- The reconciler-visible pool state: live map, fresh-supervisor counter,
and the ids of all supervisors cancelled so far. -/
structure PoolReconState where
  live : List (String × SupRecord)
  nextSup : Nat
  cancelled : List Nat
  deriving DecidableEq, Repr

/-- The record literal built by `createAndStartProxyConfig`
(proxypool/checker.go): fields copied from the definition, `IsActive` set
to false, every unlisted Go field at its zero value. -/
def freshProxyConfig (d : ProxyDefinition) : ProxyConfig :=
  { Address := d.Address, Username := d.Username, Password := d.Password,
    Tags := d.Tags, Description := d.Description, IsActive := false,
    LastCheck := 0, ResponseTime := 0, SuccessCount := 0, FailCount := 0 }

/-- The `newProxiesMap` built at the top of `reloadAndReconcileProxies`:
Go map insertion over the definitions slice in order, so a duplicated
address keeps its last definition. -/
def newProxiesMap (defs : List ProxyDefinition) : List (String × ProxyDefinition) :=
  defs.foldl (fun m d => ainsert d.Address d m) []

/-- The removal loop of `reloadAndReconcileProxies`: every live entry whose
address is absent from `newProxiesMap` has its health check shut down
(supervisor cancelled) and is deleted from the live map. -/
def removeStale (nm : List (String × ProxyDefinition)) (st : PoolReconState) :
    PoolReconState :=
  { live := st.live.filter fun e => (alookup e.1 nm).isSome,
    nextSup := st.nextSup,
    cancelled := st.cancelled ++
      (st.live.filter fun e => (alookup e.1 nm).isNone).map fun e => e.2.supId }

/-- One iteration of the add-or-update loop of `reloadAndReconcileProxies`.
For an existing entry: compare credentials, overwrite tags and description
under the record lock while noting whether they changed, and on any change
cancel the old supervisor and install a freshly created record with a new
supervisor. For a new address: install a freshly created record with a new
supervisor. -/
def applyDefinition (st : PoolReconState) : String × ProxyDefinition → PoolReconState
  | (addr, d) =>
  match alookup addr st.live with
  | some existing =>
    let needsRestart :=
      (existing.cfg.Username != d.Username) || (existing.cfg.Password != d.Password)
    let tagsChanged := !(equalStringSlices existing.cfg.Tags d.Tags)
    let descChanged := existing.cfg.Description != d.Description
    let updated : SupRecord :=
      ⟨{ existing.cfg with Tags := d.Tags, Description := d.Description },
        existing.supId⟩
    if needsRestart || (tagsChanged || descChanged) then
      { live := ainsert addr ⟨freshProxyConfig d, st.nextSup⟩ st.live,
        nextSup := st.nextSup + 1,
        cancelled := st.cancelled ++ [existing.supId] }
    else
      { st with live := ainsert addr updated st.live }
  | none =>
    { live := ainsert addr ⟨freshProxyConfig d, st.nextSup⟩ st.live,
      nextSup := st.nextSup + 1,
      cancelled := st.cancelled }

/-- Embeds `Pool.reloadAndReconcileProxies` (proxypool/checker.go) applied
to an already-taken definitions snapshot: build `newProxiesMap`, run the
removal loop, then the add-or-update loop over the map's entries. -/
def reloadAndReconcileProxies (newDefinitions : List ProxyDefinition)
    (st : PoolReconState) : PoolReconState :=
  let nm := newProxiesMap newDefinitions
  nm.foldl applyDefinition (removeStale nm st)

/-! ### Concrete instances used to exercise the reconciler -/

/-- A desired definition for address `a:1` with rotated password `p2`. -/
def demoDefA : ProxyDefinition := ⟨"a:1", "u", "p2", ["x"], "d"⟩

/-- A desired definition for the new address `c:1`. -/
def demoDefC : ProxyDefinition := ⟨"c:1", "", "", [], ""⟩

/-- A live record for `a:1` holding the old password `p1` and non-zero
counters, supervised by supervisor 0. -/
def demoOldA : SupRecord := ⟨⟨"a:1", "u", "p1", ["x"], "d", true, 5, 10, 3, 4⟩, 0⟩

/-- A live record for `b:1`, supervised by supervisor 1. -/
def demoOldB : SupRecord := ⟨⟨"b:1", "", "", [], "", false, 0, 0, 0, 0⟩, 1⟩

/-- A pool state with live records for `a:1` and `b:1`, two supervisors
handed out, none cancelled. -/
def demoState : PoolReconState := ⟨[("a:1", demoOldA), ("b:1", demoOldB)], 2, []⟩

/-- A desired definition for `t:1` whose tags `[x, x]` differ from the live
record's `[x, y]` only in element multiplicity; credentials and description
unchanged. -/
def demoTagsDef : ProxyDefinition := ⟨"t:1", "u", "p", ["x", "x"], "d"⟩

/-- A live record for `t:1` with tags `[x, y]`, non-zero counters and
active flag set, supervised by supervisor 0. -/
def demoTagsOld : SupRecord := ⟨⟨"t:1", "u", "p", ["x", "y"], "d", true, 5, 10, 3, 4⟩, 0⟩

/-- A pool state whose only live record is `t:1`. -/
def demoTagsState : PoolReconState := ⟨[("t:1", demoTagsOld)], 1, []⟩

/-! ## Helper lemmas -/

/-- Counting the ticks the select loop consumes before its first
cancellation. -/
def ticksBeforeCancel : List LoopEvent → Nat
  | [] => 0
  | .tick :: es => ticksBeforeCancel es + 1
  | .cancel :: _ => 0

theorem runTickerLoop_eq (es : List LoopEvent) :
    ∀ n, runTickerLoop n es = n + ticksBeforeCancel es := by
  induction es with
  | nil => intro n; simp [runTickerLoop, ticksBeforeCancel]
  | cons e rest ih =>
    intro n
    cases e with
    | tick => simp [runTickerLoop, ticksBeforeCancel, ih]; omega
    | cancel => simp [runTickerLoop, ticksBeforeCancel]

theorem equalStringSlices_iff (a b : List String) :
    equalStringSlices a b = true ↔ a.length = b.length ∧ ∀ v ∈ b, v ∈ a := by
  unfold equalStringSlices
  split
  · rename_i h
    simp only [List.all_eq_true, h, true_and]
    constructor
    · intro hall v hv
      exact List.elem_iff.mp (hall v hv)
    · intro hall v hv
      exact List.elem_iff.mpr (hall v hv)
  · rename_i h
    simp [h]

/-! ## Claims -/

/-- C6. `MarkActive(d)` sets `IsActive := true`, `LastCheck := now`,
`ResponseTime := d`; `MarkInactive(err)` sets `IsActive := false` and
`LastCheck := now` while leaving every other field unchanged, and two
`MarkInactive` calls with different error arguments produce identical
record states. -/
theorem markActive_markInactive_frame (pc : ProxyConfig) (d now : Nat) (e : String) :
    (pc.MarkActive d now).IsActive = true
    ∧ (pc.MarkActive d now).LastCheck = now
    ∧ (pc.MarkActive d now).ResponseTime = d
    ∧ (pc.MarkActive d now).SuccessCount = pc.SuccessCount
    ∧ (pc.MarkActive d now).FailCount = pc.FailCount
    ∧ (pc.MarkActive d now).Address = pc.Address
    ∧ (pc.MarkInactive e now).IsActive = false
    ∧ (pc.MarkInactive e now).LastCheck = now
    ∧ (pc.MarkInactive e now).ResponseTime = pc.ResponseTime
    ∧ (pc.MarkInactive e now).SuccessCount = pc.SuccessCount
    ∧ (pc.MarkInactive e now).FailCount = pc.FailCount
    ∧ (pc.MarkInactive e now).Address = pc.Address
    ∧ (pc.MarkInactive e now).Username = pc.Username
    ∧ (pc.MarkInactive e now).Password = pc.Password
    ∧ (pc.MarkInactive e now).Tags = pc.Tags
    ∧ (pc.MarkInactive e now).Description = pc.Description
    ∧ (∀ e1 e2 : String, pc.MarkInactive e1 now = pc.MarkInactive e2 now) := by
  refine ⟨rfl, rfl, rfl, rfl, rfl, rfl, rfl, rfl, rfl, rfl, rfl, rfl, rfl, rfl,
    rfl, rfl, ?_⟩
  intro e1 e2
  rfl

/-- C5. Every probe invocation, on every outcome path, applies exactly one
of `MarkActive` or `MarkInactive` to the record — so `LastCheck` is set to
the probe instant on every outcome — never produces an error (the embedding
is a total function into updated records), and leaves `SuccessCount` and
`FailCount` unchanged. -/
theorem checkProxy_consumes_errors (env : ProbeEnv) (now : Nat) (pc : ProxyConfig) :
    (checkProxy env now pc).LastCheck = now
    ∧ (checkProxy env now pc).SuccessCount = pc.SuccessCount
    ∧ (checkProxy env now pc).FailCount = pc.FailCount
    ∧ (checkProxy env now pc = pc.MarkActive env.elapsed now
        ∨ ∃ e, checkProxy env now pc = pc.MarkInactive e now)
    ∧ (∀ d e, pc.MarkActive d now ≠ pc.MarkInactive e now) := by
  refine ⟨?_, ?_, ?_, ?_, ?_⟩
  case _ =>
    unfold checkProxy
    cases env.dialerErr <;> cases env.targetErr <;> cases env.dialErr <;>
      cases env.handshakeErr <;> rfl
  case _ =>
    unfold checkProxy
    cases env.dialerErr <;> cases env.targetErr <;> cases env.dialErr <;>
      cases env.handshakeErr <;> rfl
  case _ =>
    unfold checkProxy
    cases env.dialerErr <;> cases env.targetErr <;> cases env.dialErr <;>
      cases env.handshakeErr <;> rfl
  case _ =>
    unfold checkProxy
    cases hde : env.dialerErr with
    | some e => exact Or.inr ⟨e, rfl⟩
    | none =>
      cases hte : env.targetErr with
      | some e => exact Or.inr ⟨e, rfl⟩
      | none =>
        cases hdi : env.dialErr with
        | some e => exact Or.inr ⟨e, rfl⟩
        | none =>
          cases hh : env.handshakeErr with
          | some e => exact Or.inr ⟨e, rfl⟩
          | none => exact Or.inl rfl
  case _ =>
    intro d e h
    have := congrArg ProxyConfig.IsActive h
    simp [ProxyConfig.MarkActive, ProxyConfig.MarkInactive] at this

/-- C10. `MultiAuth.Valid` returns true exactly when the username is in the
client map with `Allowed = true` and a byte-for-byte matching password; the
`addr` argument never influences the result. -/
theorem multiAuthValid_iff (a : MultiAuth) (u p addr : String) :
    (a.Valid u p addr = true ↔
      ∃ c, alookup u a.clients = some c ∧ c.Allowed = true ∧ c.Password = p)
    ∧ (∀ addr2, a.Valid u p addr = a.Valid u p addr2) := by
  constructor
  · unfold MultiAuth.Valid
    cases hc : alookup u a.clients with
    | none => simp
    | some c =>
      cases hA : c.Allowed with
      | false => simp [hA]
      | true =>
        by_cases hP : c.Password = p
        · simp [hA, hP]
        · simp [hA, bne_iff_ne, hP]
  · intro addr2
    rfl

/-- C2 counterexample. The reconciler's tag comparison is not
multiplicity-sensitive: `["x", "y"]` and `["x", "x"]` are not permutations
of each other (their multisets differ), yet `equalStringSlices` reports
them equal. -/
theorem equalStringSlices_multiplicity_counterexample :
    equalStringSlices ["x", "y"] ["x", "x"] = true
    ∧ ¬ (List.Perm ["x", "y"] ["x", "x"]) := by
  constructor
  · rfl
  · decide

/-- C2 amended. The tag comparison is order-insensitive — every pair of
permuted lists compares equal — and length-sensitive, but not
multiplicity-sensitive: it reports equality exactly when the lengths agree
and every element of the second list occurs somewhere in the first, so
same-length lists with different element multiplicities can compare
equal. -/
theorem equalStringSlices_spec (a b : List String) :
    (equalStringSlices a b = true ↔ a.length = b.length ∧ ∀ v ∈ b, v ∈ a)
    ∧ (List.Perm a b → equalStringSlices a b = true)
    ∧ (a.length ≠ b.length → equalStringSlices a b = false) := by
  refine ⟨equalStringSlices_iff a b, ?_, ?_⟩
  · intro hperm
    exact (equalStringSlices_iff a b).mpr
      ⟨hperm.length_eq, fun v hv => hperm.mem_iff.mpr hv⟩
  · intro hne
    cases h : equalStringSlices a b with
    | false => rfl
    | true => exact absurd ((equalStringSlices_iff a b).mp h).1 hne

/-- C2 witness: the amended characterisation applied to the permuted pair
`["a", "b"]`, `["b", "a"]` and the different-length pair from the spec. -/
theorem equalStringSlices_spec_witness :
    equalStringSlices ["a", "b"] ["b", "a"] = true
    ∧ equalStringSlices ["a", "b"] ["a", "a", "b"] = false := by
  constructor
  · exact (equalStringSlices_spec ["a", "b"] ["b", "a"]).2.1 (by decide)
  · exact (equalStringSlices_spec ["a", "b"] ["a", "a", "b"]).2.2 (by decide)

/-- C7. With non-positive `check_interval` the supervisor loop performs
exactly the one initial probe, constructs no ticker, and blocks until
cancellation; with positive `check_interval` it probes once immediately and
then once per delivered tick until the first cancellation. -/
theorem healthCheckLoop_interval_spec (iv : Int) (events : List LoopEvent) :
    (iv ≤ 0 →
      healthCheckLoopForProxy iv events = { probeCalls := 1, tickerCreated := false })
    ∧ (0 < iv →
      healthCheckLoopForProxy iv events =
        { probeCalls := 1 + ticksBeforeCancel events, tickerCreated := true }) := by
  constructor
  · intro h
    simp [healthCheckLoopForProxy, h]
  · intro h
    have hn : ¬ iv ≤ 0 := not_le.mpr h
    simp [healthCheckLoopForProxy, hn, runTickerLoop_eq]

/-- C7 witness: a zero interval yields one probe and no ticker regardless
of pending ticks; a positive interval counts the ticks before the first
cancellation. -/
theorem healthCheckLoop_interval_spec_witness :
    healthCheckLoopForProxy 0 [.tick, .tick] = { probeCalls := 1, tickerCreated := false }
    ∧ healthCheckLoopForProxy 5 [.tick, .cancel, .tick] =
        { probeCalls := 2, tickerCreated := true } := by
  constructor
  · exact (healthCheckLoop_interval_spec 0 [.tick, .tick]).1 (by decide)
  · have h := (healthCheckLoop_interval_spec 5 [.tick, .cancel, .tick]).2 (by decide)
    simpa [ticksBeforeCancel] using h

theorem mem_activeIdxs (ps : List ProxyConfig) (i : Nat) :
    i ∈ activeIdxs ps ↔ ∃ h : i < ps.length, (ps.get ⟨i, h⟩).IsActive = true := by
  unfold activeIdxs
  constructor
  · intro hmem
    obtain ⟨hr, hp⟩ := List.mem_filter.mp hmem
    have h : i < ps.length := List.mem_range.mp hr
    refine ⟨h, ?_⟩
    rw [List.getElem?_eq_getElem h] at hp
    simpa [List.get_eq_getElem] using hp
  · rintro ⟨h, hact⟩
    refine List.mem_filter.mpr ⟨List.mem_range.mpr h, ?_⟩
    rw [List.getElem?_eq_getElem h]
    simpa [List.get_eq_getElem] using hact

theorem activeIdxs_len_zero_iff (ps : List ProxyConfig) :
    (activeIdxs ps).length = 0 ↔ ∀ pc ∈ ps, pc.IsActive = false := by
  rw [List.length_eq_zero, List.eq_nil_iff_forall_not_mem]
  constructor
  · intro hnone pc hpc
    by_contra hne
    have hact : pc.IsActive = true := Bool.ne_false_iff.mp hne
    obtain ⟨n, hget⟩ := List.mem_iff_get.mp hpc
    have : (n : Nat) ∈ activeIdxs ps := by
      refine (mem_activeIdxs ps n).mpr ⟨n.isLt, ?_⟩
      rw [Fin.eta, hget]
      exact hact
    exact hnone _ this
  · intro hall i hi
    obtain ⟨h, hact⟩ := (mem_activeIdxs ps i).mp hi
    have hmem : ps.get ⟨i, h⟩ ∈ ps := by
      rw [List.get_eq_getElem]
      exact List.getElem_mem h
    rw [hall _ hmem] at hact
    cases hact

/-- C3. `GetActiveProxy` fails, with the no-active error and no other
error, exactly when no record is active; any record it returns is an active
member of the pool; the slice it draws from enumerates the active records
without repetition and completely, and the random draw `k` selects its
`k`-th element — so a uniform `rand.Intn` draw yields a uniform choice over
the active records. -/
theorem getActiveProxy_spec (ps : List ProxyConfig) (r : Nat) :
    (GetActiveProxy ps r = .error noActiveProxiesError ↔
      ∀ pc ∈ ps, pc.IsActive = false)
    ∧ (∀ e, GetActiveProxy ps r = .error e → e = noActiveProxiesError)
    ∧ (∀ i, GetActiveProxy ps r = .ok i →
        ∃ h : i < ps.length, (ps.get ⟨i, h⟩).IsActive = true)
    ∧ (activeIdxs ps).Nodup
    ∧ (∀ j (h : j < ps.length), (ps.get ⟨j, h⟩).IsActive = true → j ∈ activeIdxs ps)
    ∧ (∀ k (hk : k < (activeIdxs ps).length),
        GetActiveProxy ps k = .ok ((activeIdxs ps).get ⟨k, hk⟩)) := by
  refine ⟨?_, ?_, ?_, ?_, ?_, ?_⟩
  · by_cases h0 : (activeIdxs ps).length = 0
    · simp only [GetActiveProxy, h0, if_pos rfl]
      constructor
      · intro _
        exact (activeIdxs_len_zero_iff ps).mp h0
      · intro _
        rfl
    · simp only [GetActiveProxy, if_neg h0]
      constructor
      · intro h
        cases h
      · intro hall
        exact absurd ((activeIdxs_len_zero_iff ps).mpr hall) h0
  · intro e he
    by_cases h0 : (activeIdxs ps).length = 0
    · simp only [GetActiveProxy, h0, if_pos rfl] at he
      cases he
      rfl
    · simp only [GetActiveProxy, if_neg h0] at he
      cases he
  · intro i hi
    by_cases h0 : (activeIdxs ps).length = 0
    · simp only [GetActiveProxy, h0, if_pos rfl] at hi
      cases hi
    · simp only [GetActiveProxy, if_neg h0] at hi
      cases hi
      have hlt : r % (activeIdxs ps).length < (activeIdxs ps).length :=
        Nat.mod_lt _ (Nat.pos_of_ne_zero h0)
      have hmem : (activeIdxs ps).getD (r % (activeIdxs ps).length) 0 ∈ activeIdxs ps := by
        rw [List.getD_eq_getElem _ _ hlt]
        exact List.getElem_mem hlt
      exact (mem_activeIdxs ps _).mp hmem
  · exact (List.nodup_range ps.length).filter _
  · intro j h hact
    exact (mem_activeIdxs ps j).mpr ⟨h, hact⟩
  · intro k hk
    have h0 : ¬ (activeIdxs ps).length = 0 := by omega
    simp only [GetActiveProxy, if_neg h0]
    rw [Nat.mod_eq_of_lt hk, List.getD_eq_getElem _ _ hk, List.get_eq_getElem]

/-- C3 witness: on a two-record pool with one active record, every draw
returns the active record, and on the all-inactive pool the selector fails
with the no-active error. -/
theorem getActiveProxy_spec_witness :
    GetActiveProxy
      [⟨"u:1080", "", "", [], "", false, 0, 0, 0, 0⟩,
       ⟨"v:1080", "", "", [], "", true, 7, 42, 0, 0⟩] 0 = .ok 1
    ∧ GetActiveProxy [⟨"u:1080", "", "", [], "", false, 0, 0, 0, 0⟩] 3
        = .error noActiveProxiesError := by
  constructor
  · have h := (getActiveProxy_spec
      [⟨"u:1080", "", "", [], "", false, 0, 0, 0, 0⟩,
       ⟨"v:1080", "", "", [], "", true, 7, 42, 0, 0⟩] 0).2.2.2.2.2 0 (by decide)
    simpa using h
  · exact (getActiveProxy_spec [⟨"u:1080", "", "", [], "", false, 0, 0, 0, 0⟩] 3).1.mpr
      (by decide)

/-- C4. Below the `uint64` wrap, every `Dial` call increments the global
requests-received counter by exactly one and exactly one of the global
success / failed counters by exactly one; when the selector fails, `Dial`
returns the selector's error unchanged, counts only a global failure, and
leaves every pool record (hence every per-record counter) untouched. -/
theorem dial_spec (env : DialEnv) (ps : List ProxyConfig) (m : Metrics)
    (hr : m.TotalRequests + 1 < 2 ^ 64) (hs : m.TotalSuccess + 1 < 2 ^ 64)
    (hf : m.TotalFailed + 1 < 2 ^ 64) :
    ((Dialer.Dial env ps m).2.2.TotalRequests = m.TotalRequests + 1)
    ∧ (((Dialer.Dial env ps m).2.2.TotalSuccess = m.TotalSuccess + 1
          ∧ (Dialer.Dial env ps m).2.2.TotalFailed = m.TotalFailed)
        ∨ ((Dialer.Dial env ps m).2.2.TotalFailed = m.TotalFailed + 1
          ∧ (Dialer.Dial env ps m).2.2.TotalSuccess = m.TotalSuccess))
    ∧ (∀ e, GetActiveProxy ps env.r = .error e →
        (Dialer.Dial env ps m).1 = .error e
        ∧ (Dialer.Dial env ps m).2.1 = ps
        ∧ (Dialer.Dial env ps m).2.2.TotalFailed = m.TotalFailed + 1
        ∧ (Dialer.Dial env ps m).2.2.TotalSuccess = m.TotalSuccess) := by
  have er : incr64 m.TotalRequests = m.TotalRequests + 1 := by
    unfold incr64
    exact Nat.mod_eq_of_lt hr
  have es : incr64 m.TotalSuccess = m.TotalSuccess + 1 := by
    unfold incr64
    exact Nat.mod_eq_of_lt hs
  have ef : incr64 m.TotalFailed = m.TotalFailed + 1 := by
    unfold incr64
    exact Nat.mod_eq_of_lt hf
  refine ⟨?_, ?_, ?_⟩
  · cases hga : GetActiveProxy ps env.r with
    | error e => simp [Dialer.Dial, hga, er]
    | ok i =>
      cases hse : env.socksErr with
      | some e => simp [Dialer.Dial, hga, hse, er]
      | none =>
        cases ho : env.outcome <;> simp [Dialer.Dial, hga, hse, ho, er]
  · cases hga : GetActiveProxy ps env.r with
    | error e =>
      right
      simp [Dialer.Dial, hga, ef]
    | ok i =>
      cases hse : env.socksErr with
      | some e =>
        right
        simp [Dialer.Dial, hga, hse, ef]
      | none =>
        cases ho : env.outcome with
        | conn =>
          left
          simp [Dialer.Dial, hga, hse, ho, es]
        | dialFailed e =>
          right
          simp [Dialer.Dial, hga, hse, ho, ef]
        | ctxDone =>
          right
          simp [Dialer.Dial, hga, hse, ho, ef]
  · intro e he
    simp [Dialer.Dial, he, ef]

/-- C4 witness: the spec's empty-pool scenario — one `Dial` call on a pool
with no records returns the no-active error with global-failed 1,
global-success 0, requests 1. -/
theorem dial_spec_witness :
    (Dialer.Dial ⟨0, none, .conn⟩ [] ⟨0, 0, 0⟩).1 = .error noActiveProxiesError
    ∧ (Dialer.Dial ⟨0, none, .conn⟩ [] ⟨0, 0, 0⟩).2.2.TotalFailed = 1
    ∧ (Dialer.Dial ⟨0, none, .conn⟩ [] ⟨0, 0, 0⟩).2.2.TotalSuccess = 0
    ∧ (Dialer.Dial ⟨0, none, .conn⟩ [] ⟨0, 0, 0⟩).2.2.TotalRequests = 1 := by
  have h := dial_spec ⟨0, none, .conn⟩ [] ⟨0, 0, 0⟩ (by norm_num) (by norm_num)
    (by norm_num)
  have herr : GetActiveProxy ([] : List ProxyConfig) 0 = .error noActiveProxiesError :=
    rfl
  obtain ⟨h1, _, h3⟩ := h
  obtain ⟨ha, _, hc, hd⟩ := h3 noActiveProxiesError herr
  exact ⟨ha, by simpa using hc, by simpa using hd, by simpa using h1⟩

theorem validateDefs_none_iff (defs : List ProxyDefinition) :
    ∀ seen, validateDefs seen defs = none ↔
      ((∀ d ∈ defs, d.Address ≠ "" ∧ d.Address ∉ seen)
        ∧ (defs.map ProxyDefinition.Address).Nodup) := by
  induction defs with
  | nil =>
    intro seen
    simp [validateDefs]
  | cons d rest ih =>
    intro seen
    simp only [validateDefs]
    by_cases h1 : d.Address = ""
    · simp only [if_pos h1]
      constructor
      · intro h
        cases h
      · rintro ⟨hall, _⟩
        exact absurd h1 (hall d (List.mem_cons_self d rest)).1
    · simp only [if_neg h1]
      by_cases h2 : seen.contains d.Address = true
      · simp only [if_pos h2]
        constructor
        · intro h
          cases h
        · rintro ⟨hall, _⟩
          exact absurd (List.elem_iff.mp h2) (hall d (List.mem_cons_self d rest)).2
      · simp only [if_neg h2]
        rw [ih (d.Address :: seen)]
        constructor
        · rintro ⟨hall, hnd⟩
          refine ⟨?_, ?_⟩
          · intro d2 hd2
            rcases List.mem_cons.mp hd2 with heq | hd2
            · subst heq
              exact ⟨h1, fun hc => h2 (List.elem_iff.mpr hc)⟩
            · obtain ⟨hne, hnotin⟩ := hall d2 hd2
              exact ⟨hne, fun hc => hnotin (List.mem_cons_of_mem _ hc)⟩
          · simp only [List.map_cons, List.nodup_cons]
            refine ⟨?_, hnd⟩
            intro hmem
            obtain ⟨d2, hd2, heq⟩ := List.mem_map.mp hmem
            obtain ⟨_, hnotin⟩ := hall d2 hd2
            apply hnotin
            rw [heq]
            exact List.mem_cons_self _ _
        · rintro ⟨hall, hnd⟩
          simp only [List.map_cons, List.nodup_cons] at hnd
          refine ⟨?_, hnd.2⟩
          intro d2 hd2
          obtain ⟨hne, hnotin⟩ := hall d2 (List.mem_cons_of_mem _ hd2)
          refine ⟨hne, ?_⟩
          intro hc
          rcases List.mem_cons.mp hc with heq | hmem
          · exact hnd.1 (List.mem_map.mpr ⟨d2, hd2, heq⟩)
          · exact hnotin hmem

theorem validateDefs_isSome_iff (defs : List ProxyDefinition) :
    (validateDefs [] defs).isSome = true ↔
      (∃ d ∈ defs, d.Address = "") ∨ ¬ (defs.map ProxyDefinition.Address).Nodup := by
  constructor
  · intro h
    by_contra hcon
    push_neg at hcon
    obtain ⟨h1, h2⟩ := hcon
    have hnone : validateDefs [] defs = none :=
      (validateDefs_none_iff defs []).mpr
        ⟨fun d hd => ⟨h1 d hd, by simp⟩, h2⟩
    rw [hnone] at h
    cases h
  · intro h
    cases hv : validateDefs [] defs with
    | some e => rfl
    | none =>
      have hni := (validateDefs_none_iff defs []).mp hv
      rcases h with ⟨d, hd, he⟩ | hnd
      · exact absurd he (hni.1 d hd).1
      · exact absurd hni.2 hnd

/-- C8. `LoadDefinitions` errors exactly when the file is unreadable, the
JSON is malformed, a definition has an empty address, or two definitions
share an address; and on every error the previously stored definitions are
kept — the new slice is swapped in only on full success. -/
theorem loadDefinitions_spec (fs : FileState) (stored : List ProxyDefinition) :
    ((LoadDefinitions fs stored).1.isSome = true ↔
      (∃ e, fs = .unreadable e) ∨ (∃ e, fs = .malformed e) ∨
      (∃ defs, fs = .parsed defs ∧
        ((∃ d ∈ defs, d.Address = "")
          ∨ ¬ (defs.map ProxyDefinition.Address).Nodup)))
    ∧ (∀ e, (LoadDefinitions fs stored).1 = some e →
        (LoadDefinitions fs stored).2 = stored) := by
  cases fs with
  | unreadable e =>
    refine ⟨by simp [LoadDefinitions, readAndParse], ?_⟩
    intro e2 _
    simp [LoadDefinitions, readAndParse]
  | emptyFile =>
    refine ⟨by simp [LoadDefinitions, readAndParse], ?_⟩
    intro e2 h
    simp [LoadDefinitions, readAndParse] at h
  | malformed e =>
    refine ⟨by simp [LoadDefinitions, readAndParse], ?_⟩
    intro e2 _
    simp [LoadDefinitions, readAndParse]
  | parsed defs =>
    constructor
    · cases hv : validateDefs [] defs with
      | some e =>
        simp only [LoadDefinitions, readAndParse, Bool.false_eq_true, if_false, hv]
        simp only [Option.isSome_some, true_iff]
        refine Or.inr (Or.inr ⟨defs, rfl, ?_⟩)
        exact (validateDefs_isSome_iff defs).mp (by rw [hv]; rfl)
      | none =>
        simp only [LoadDefinitions, readAndParse, Bool.false_eq_true, if_false, hv]
        simp only [Option.isSome_none, Bool.false_eq_true, false_iff]
        intro hcon
        rcases hcon with ⟨e, he⟩ | ⟨e, he⟩ | ⟨defs2, hdefs, hbad⟩
        · cases he
        · cases he
        · cases hdefs
          have : (validateDefs [] defs).isSome = true :=
            (validateDefs_isSome_iff defs).mpr hbad
          rw [hv] at this
          cases this
    · intro e he
      cases hv : validateDefs [] defs with
      | some e2 =>
        simp [LoadDefinitions, readAndParse, hv]
      | none =>
        simp [LoadDefinitions, readAndParse, hv] at he

/-- C8 witness: a duplicated address makes the load fail and keeps the
previously stored definitions. -/
theorem loadDefinitions_spec_witness :
    (LoadDefinitions
        (.parsed [⟨"a:1", "", "", [], ""⟩, ⟨"a:1", "", "", [], ""⟩])
        [⟨"old:1", "", "", [], ""⟩]).1.isSome = true
    ∧ (LoadDefinitions
        (.parsed [⟨"a:1", "", "", [], ""⟩, ⟨"a:1", "", "", [], ""⟩])
        [⟨"old:1", "", "", [], ""⟩]).2 = [⟨"old:1", "", "", [], ""⟩] := by
  have h := loadDefinitions_spec
    (.parsed [⟨"a:1", "", "", [], ""⟩, ⟨"a:1", "", "", [], ""⟩])
    [⟨"old:1", "", "", [], ""⟩]
  refine ⟨h.1.mpr (Or.inr (Or.inr ⟨_, rfl, Or.inr (by decide)⟩)), ?_⟩
  exact h.2 "duplicate proxy address" (by decide)

theorem updAt_getElem (i : Nat) (f : ProxyConfig → ProxyConfig)
    (l : List ProxyConfig) : (updAt i f l)[i]? = (l[i]?).map f := by
  induction l generalizing i with
  | nil => simp [updAt]
  | cons pc rest ih =>
    cases i with
    | zero => simp [updAt]
    | succ n => simp [updAt, ih]

/-- C9 counterexample. The snapshot's elements are not copies: after a
probe's `MarkActive` through a pool record pointer, the records observed
through the previously returned snapshot have changed. -/
theorem getProxiesSnapshot_not_copies :
    (GetProxiesSnapshot [("u:1080", 0)]).map
        ((Heap.markActiveAt ⟨[⟨"u:1080", "", "", [], "", false, 0, 0, 0, 0⟩]⟩
          0 42 100).deref)
      ≠ (GetProxiesSnapshot [("u:1080", 0)]).map
        (Heap.deref ⟨[⟨"u:1080", "", "", [], "", false, 0, 0, 0, 0⟩]⟩) := by
  decide

/-- C9 amended. `GetProxiesSnapshot` returns exactly one element per live
map entry, in map order, but the elements are the pool's record pointers —
aliases, not copies — so a mutation of a pool record performed after the
call (for example a probe's `MarkActive`) is visible through the previously
returned sequence. -/
theorem getProxiesSnapshot_spec (proxies : List (String × Nat)) (h : Heap) :
    (GetProxiesSnapshot proxies).length = proxies.length
    ∧ (∀ i : Nat, (GetProxiesSnapshot proxies)[i]? = (proxies[i]?).map Prod.snd)
    ∧ (∀ p d now, p ∈ GetProxiesSnapshot proxies →
        (h.markActiveAt p d now).deref p
          = (h.deref p).map fun pc => pc.MarkActive d now) := by
  refine ⟨by simp [GetProxiesSnapshot], ?_, ?_⟩
  · intro i
    simp [GetProxiesSnapshot]
  · intro p d now _
    unfold Heap.markActiveAt Heap.deref
    exact updAt_getElem p _ h.cells

/-- C9 amended-claim witness: the aliasing clause at the concrete
one-record pool — the mutation performed after the snapshot is observed
through the snapshot's pointer. -/
theorem getProxiesSnapshot_spec_witness :
    (Heap.markActiveAt ⟨[⟨"u:1080", "", "", [], "", false, 0, 0, 0, 0⟩]⟩
        0 42 100).deref 0
      = some (ProxyConfig.MarkActive ⟨"u:1080", "", "", [], "", false, 0, 0, 0, 0⟩
          42 100) := by
  have h := (getProxiesSnapshot_spec [("u:1080", 0)]
    ⟨[⟨"u:1080", "", "", [], "", false, 0, 0, 0, 0⟩]⟩).2.2 0 42 100 (by decide)
  simpa [Heap.deref] using h

theorem alookup_ainsert_self {α : Type} (k : String) (v : α)
    (l : List (String × α)) : alookup k (ainsert k v l) = some v := by
  induction l with
  | nil => simp [ainsert, alookup]
  | cons e rest ih =>
    obtain ⟨k2, v2⟩ := e
    by_cases h : k2 = k
    · simp [ainsert, h, alookup]
    · simp [ainsert, h, alookup, ih]

theorem alookup_ainsert_ne {α : Type} {k a : String} (h : k ≠ a) (v : α)
    (l : List (String × α)) : alookup a (ainsert k v l) = alookup a l := by
  induction l with
  | nil => simp [ainsert, alookup, h]
  | cons e rest ih =>
    obtain ⟨k2, v2⟩ := e
    by_cases h2 : k2 = k
    · subst h2
      simp [ainsert, alookup, h]
    · simp [ainsert, h2, alookup, ih]

theorem alookup_mem {α : Type} {k : String} {l : List (String × α)} {v : α}
    (h : alookup k l = some v) : (k, v) ∈ l := by
  induction l with
  | nil => cases h
  | cons e rest ih =>
    obtain ⟨k2, v2⟩ := e
    by_cases h2 : k2 = k
    · subst h2
      simp only [alookup, if_true, eq_self_iff_true, Option.some.injEq] at h
      subst h
      exact List.mem_cons_self _ _
    · simp only [alookup, if_neg h2] at h
      exact List.mem_cons_of_mem _ (ih h)

theorem alookup_isSome_iff {α : Type} (k : String) (l : List (String × α)) :
    (alookup k l).isSome = true ↔ k ∈ l.map Prod.fst := by
  induction l with
  | nil => simp [alookup]
  | cons e rest ih =>
    obtain ⟨k2, v2⟩ := e
    by_cases h2 : k2 = k
    · subst h2
      simp [alookup]
    · simp only [alookup, if_neg h2, List.map_cons, List.mem_cons, ih]
      constructor
      · intro h
        exact Or.inr h
      · rintro (h | h)
        · exact absurd h.symm h2
        · exact h

theorem alookup_filter_key {α : Type} (P : String → Bool) (l : List (String × α))
    (a : String) :
    alookup a (l.filter fun e => P e.1) = if P a then alookup a l else none := by
  induction l with
  | nil => simp [alookup]
  | cons e rest ih =>
    obtain ⟨k, v⟩ := e
    by_cases hk : k = a
    · subst hk
      by_cases hP : P k = true
      · simp [List.filter_cons, hP, alookup]
      · rw [Bool.not_eq_true] at hP
        simp [List.filter_cons, hP, alookup, ih]
    · by_cases hP : P k = true
      · simp [List.filter_cons, hP, alookup, hk, ih]
      · rw [Bool.not_eq_true] at hP
        simp [List.filter_cons, hP, alookup, hk, ih]

theorem alookup_foldl_ainsert_isSome (defs : List ProxyDefinition) (a : String) :
    ∀ m : List (String × ProxyDefinition),
      (alookup a (defs.foldl (fun m d => ainsert d.Address d m) m)).isSome = true ↔
        a ∈ defs.map ProxyDefinition.Address ∨ (alookup a m).isSome = true := by
  induction defs with
  | nil =>
    intro m
    simp
  | cons d rest ih =>
    intro m
    simp only [List.foldl_cons, List.map_cons, List.mem_cons]
    rw [ih (ainsert d.Address d m)]
    by_cases h : d.Address = a
    · subst h
      simp [alookup_ainsert_self]
    · rw [alookup_ainsert_ne h]
      constructor
      · rintro (hm | hs)
        · exact Or.inl (Or.inr hm)
        · exact Or.inr hs
      · rintro ((h2 | h2) | h2)
        · exact absurd h2.symm h
        · exact Or.inl h2
        · exact Or.inr h2

theorem mem_keys_newProxiesMap (defs : List ProxyDefinition) (a : String) :
    (alookup a (newProxiesMap defs)).isSome = true ↔
      a ∈ defs.map ProxyDefinition.Address := by
  unfold newProxiesMap
  rw [alookup_foldl_ainsert_isSome]
  simp [alookup]

theorem mem_keys_ainsert {α : Type} (k a : String) (v : α) (l : List (String × α)) :
    a ∈ (ainsert k v l).map Prod.fst ↔ a = k ∨ a ∈ l.map Prod.fst := by
  induction l with
  | nil => simp [ainsert]
  | cons e rest ih =>
    obtain ⟨k2, v2⟩ := e
    by_cases h : k2 = k
    · subst h
      simp only [ainsert, if_true, eq_self_iff_true, List.map_cons, List.mem_cons]
      tauto
    · simp only [ainsert, if_neg h, List.map_cons, List.mem_cons, ih]
      tauto

theorem nodup_keys_ainsert {α : Type} (k : String) (v : α) (l : List (String × α))
    (h : (l.map Prod.fst).Nodup) : ((ainsert k v l).map Prod.fst).Nodup := by
  induction l with
  | nil => simp [ainsert]
  | cons e rest ih =>
    obtain ⟨k2, v2⟩ := e
    simp only [List.map_cons, List.nodup_cons] at h
    by_cases h2 : k2 = k
    · subst h2
      simp only [ainsert, if_true, eq_self_iff_true, List.map_cons, List.nodup_cons]
      exact h
    · simp only [ainsert, if_neg h2, List.map_cons, List.nodup_cons]
      refine ⟨?_, ih h.2⟩
      intro hmem
      rcases (mem_keys_ainsert k k2 v rest).mp hmem with heq | hmem2
      · exact h2 heq
      · exact h.1 hmem2

theorem nodup_keys_newProxiesMap (defs : List ProxyDefinition) :
    ((newProxiesMap defs).map Prod.fst).Nodup := by
  unfold newProxiesMap
  have hstep : ∀ m : List (String × ProxyDefinition), (m.map Prod.fst).Nodup →
      ((defs.foldl (fun m d => ainsert d.Address d m) m).map Prod.fst).Nodup := by
    induction defs with
    | nil =>
      intro m hm
      simpa using hm
    | cons d rest ih =>
      intro m hm
      exact ih _ (nodup_keys_ainsert _ _ _ hm)
  exact hstep [] (by simp)

theorem changed_bool_iff (ex : SupRecord) (d : ProxyDefinition) :
    (((ex.cfg.Username != d.Username) || (ex.cfg.Password != d.Password))
        || ((!(equalStringSlices ex.cfg.Tags d.Tags))
            || (ex.cfg.Description != d.Description))) = true
      ↔ (ex.cfg.Username ≠ d.Username ∨ ex.cfg.Password ≠ d.Password ∨
          equalStringSlices ex.cfg.Tags d.Tags = false ∨
          ex.cfg.Description ≠ d.Description) := by
  simp [Bool.or_eq_true, bne_iff_ne, Bool.not_eq_true', or_assoc]

theorem applyDefinition_lookup_ne (st : PoolReconState)
    (e : String × ProxyDefinition) {a : String} (h : e.1 ≠ a) :
    alookup a (applyDefinition st e).live = alookup a st.live := by
  obtain ⟨addr, d⟩ := e
  simp only at h
  cases hl : alookup addr st.live with
  | none => simp [applyDefinition, hl, alookup_ainsert_ne h]
  | some ex =>
    simp only [applyDefinition, hl]
    split
    · simp [alookup_ainsert_ne h]
    · simp [alookup_ainsert_ne h]

theorem applyDefinition_nextSup_le (st : PoolReconState)
    (e : String × ProxyDefinition) :
    st.nextSup ≤ (applyDefinition st e).nextSup := by
  obtain ⟨addr, d⟩ := e
  cases hl : alookup addr st.live with
  | none => simp [applyDefinition, hl]
  | some ex =>
    simp only [applyDefinition, hl]
    split
    · simp
    · simp

theorem applyDefinition_cancelled_mono (st : PoolReconState)
    (e : String × ProxyDefinition) {x : Nat} (hx : x ∈ st.cancelled) :
    x ∈ (applyDefinition st e).cancelled := by
  obtain ⟨addr, d⟩ := e
  cases hl : alookup addr st.live with
  | none => simpa [applyDefinition, hl] using hx
  | some ex =>
    simp only [applyDefinition, hl]
    split
    · exact List.mem_append_left _ hx
    · exact hx

theorem applyDefinition_lookup_isSome (st : PoolReconState)
    (e : String × ProxyDefinition) (a : String) :
    (alookup a (applyDefinition st e).live).isSome = true ↔
      e.1 = a ∨ (alookup a st.live).isSome = true := by
  obtain ⟨addr, d⟩ := e
  by_cases h : addr = a
  · subst h
    cases hl : alookup addr st.live with
    | none => simp [applyDefinition, hl, alookup_ainsert_self]
    | some ex =>
      simp only [applyDefinition, hl]
      split <;> simp [alookup_ainsert_self]
  · rw [applyDefinition_lookup_ne st (addr, d) h]
    simp [h]

theorem foldl_applyDefinition_nextSup_le
    (entries : List (String × ProxyDefinition)) :
    ∀ st : PoolReconState, st.nextSup ≤ (entries.foldl applyDefinition st).nextSup := by
  induction entries with
  | nil =>
    intro st
    simp
  | cons e rest ih =>
    intro st
    simp only [List.foldl_cons]
    exact le_trans (applyDefinition_nextSup_le st e) (ih _)

theorem foldl_applyDefinition_cancelled_mono
    (entries : List (String × ProxyDefinition)) :
    ∀ (st : PoolReconState) {x : Nat}, x ∈ st.cancelled →
      x ∈ (entries.foldl applyDefinition st).cancelled := by
  induction entries with
  | nil =>
    intro st x hx
    simpa using hx
  | cons e rest ih =>
    intro st x hx
    simp only [List.foldl_cons]
    exact ih _ (applyDefinition_cancelled_mono st e hx)

theorem foldl_applyDefinition_lookup_notmem
    (entries : List (String × ProxyDefinition)) :
    ∀ (st : PoolReconState) {a : String}, a ∉ entries.map Prod.fst →
      alookup a (entries.foldl applyDefinition st).live = alookup a st.live := by
  induction entries with
  | nil =>
    intro st a h
    simp
  | cons e rest ih =>
    intro st a h
    simp only [List.map_cons, List.mem_cons, not_or] at h
    simp only [List.foldl_cons]
    rw [ih _ h.2, applyDefinition_lookup_ne st e (fun hh => h.1 hh.symm)]

theorem foldl_applyDefinition_lookup_isSome
    (entries : List (String × ProxyDefinition)) :
    ∀ (st : PoolReconState) (a : String),
      (alookup a (entries.foldl applyDefinition st).live).isSome = true ↔
        (alookup a st.live).isSome = true ∨ a ∈ entries.map Prod.fst := by
  induction entries with
  | nil =>
    intro st a
    simp
  | cons e rest ih =>
    intro st a
    simp only [List.foldl_cons, List.map_cons, List.mem_cons]
    rw [ih, applyDefinition_lookup_isSome]
    constructor
    · rintro ((h | h) | h)
      · exact Or.inr (Or.inl h.symm)
      · exact Or.inl h
      · exact Or.inr (Or.inr h)
    · rintro (h | (h | h))
      · exact Or.inl (Or.inr h)
      · exact Or.inl (Or.inl h.symm)
      · exact Or.inr h

theorem foldl_applyDefinition_restart
    (entries : List (String × ProxyDefinition)) :
    ∀ (st : PoolReconState) (a : String) (d : ProxyDefinition) (ex : SupRecord),
      (entries.map Prod.fst).Nodup → (a, d) ∈ entries →
      alookup a st.live = some ex →
      (ex.cfg.Username ≠ d.Username ∨ ex.cfg.Password ≠ d.Password ∨
        equalStringSlices ex.cfg.Tags d.Tags = false ∨
        ex.cfg.Description ≠ d.Description) →
      ∃ n, st.nextSup ≤ n ∧
        alookup a (entries.foldl applyDefinition st).live
          = some ⟨freshProxyConfig d, n⟩ ∧
        ex.supId ∈ (entries.foldl applyDefinition st).cancelled := by
  induction entries with
  | nil =>
    intro st a d ex _ hmem
    cases hmem
  | cons e rest ih =>
    intro st a d ex hnd hmem hex hch
    simp only [List.map_cons, List.nodup_cons] at hnd
    simp only [List.foldl_cons]
    rcases List.mem_cons.mp hmem with heq | hmem2
    · subst heq
      have hcb := (changed_bool_iff ex d).mpr hch
      have happ : applyDefinition st (a, d) =
          { live := ainsert a ⟨freshProxyConfig d, st.nextSup⟩ st.live,
            nextSup := st.nextSup + 1,
            cancelled := st.cancelled ++ [ex.supId] } := by
        simp [applyDefinition, hex, hcb]
      rw [happ]
      refine ⟨st.nextSup, le_refl _, ?_, ?_⟩
      · rw [foldl_applyDefinition_lookup_notmem rest _ hnd.1]
        exact alookup_ainsert_self _ _ _
      · apply foldl_applyDefinition_cancelled_mono
        simp
    · have hne : e.1 ≠ a := by
        intro hh
        apply hnd.1
        rw [hh]
        exact List.mem_map.mpr ⟨(a, d), hmem2, rfl⟩
      have hex2 : alookup a (applyDefinition st e).live = some ex := by
        rw [applyDefinition_lookup_ne st e hne]
        exact hex
      obtain ⟨n, hn, hl, hc⟩ := ih (applyDefinition st e) a d ex hnd.2 hmem2 hex2 hch
      exact ⟨n, le_trans (applyDefinition_nextSup_le st e) hn, hl, hc⟩

theorem foldl_applyDefinition_add
    (entries : List (String × ProxyDefinition)) :
    ∀ (st : PoolReconState) (a : String) (d : ProxyDefinition),
      (entries.map Prod.fst).Nodup → (a, d) ∈ entries →
      alookup a st.live = none →
      ∃ n, st.nextSup ≤ n ∧
        alookup a (entries.foldl applyDefinition st).live
          = some ⟨freshProxyConfig d, n⟩ := by
  induction entries with
  | nil =>
    intro st a d _ hmem
    cases hmem
  | cons e rest ih =>
    intro st a d hnd hmem hex
    simp only [List.map_cons, List.nodup_cons] at hnd
    simp only [List.foldl_cons]
    rcases List.mem_cons.mp hmem with heq | hmem2
    · subst heq
      have happ : applyDefinition st (a, d) =
          { live := ainsert a ⟨freshProxyConfig d, st.nextSup⟩ st.live,
            nextSup := st.nextSup + 1,
            cancelled := st.cancelled } := by
        simp [applyDefinition, hex]
      rw [happ]
      refine ⟨st.nextSup, le_refl _, ?_⟩
      rw [foldl_applyDefinition_lookup_notmem rest _ hnd.1]
      exact alookup_ainsert_self _ _ _
    · have hne : e.1 ≠ a := by
        intro hh
        apply hnd.1
        rw [hh]
        exact List.mem_map.mpr ⟨(a, d), hmem2, rfl⟩
      have hex2 : alookup a (applyDefinition st e).live = none := by
        rw [applyDefinition_lookup_ne st e hne]
        exact hex
      obtain ⟨n, hn, hl⟩ := ih (applyDefinition st e) a d hnd.2 hmem2 hex2
      exact ⟨n, le_trans (applyDefinition_nextSup_le st e) hn, hl⟩

theorem removeStale_lookup (nm : List (String × ProxyDefinition))
    (st : PoolReconState) (a : String) :
    alookup a (removeStale nm st).live =
      if (alookup a nm).isSome then alookup a st.live else none :=
  alookup_filter_key (fun k => (alookup k nm).isSome) st.live a

theorem removeStale_cancelled_old (nm : List (String × ProxyDefinition))
    (st : PoolReconState) {a : String} {ex : SupRecord}
    (hex : alookup a st.live = some ex) (hnone : alookup a nm = none) :
    ex.supId ∈ (removeStale nm st).cancelled := by
  unfold removeStale
  apply List.mem_append_right
  apply List.mem_map.mpr
  refine ⟨(a, ex), ?_, rfl⟩
  apply List.mem_filter.mpr
  refine ⟨alookup_mem hex, ?_⟩
  simp [hnone]

theorem removeStale_cancelled_mono (nm : List (String × ProxyDefinition))
    (st : PoolReconState) {x : Nat} (hx : x ∈ st.cancelled) :
    x ∈ (removeStale nm st).cancelled :=
  List.mem_append_left _ hx

/-- C1 amended. One reconciliation pass over a desired snapshot: the
resulting live key set is exactly the snapshot's address set; every live
address absent from the snapshot has its supervisor cancelled and its entry
deleted; every address in both maps whose username, password, or
description differ, or whose tags differ *per the reconciler's own
comparison* (`equalStringSlices = false` — order- and
multiplicity-insensitive, not the spec's multiset equality), is replaced by
a freshly created record built from the new definition — `IsActive =
false`, zero counters — under a newly allocated supervisor (ids already
handed out are below `nextSup`); and every address only in the snapshot is
added as such a fresh record. -/
theorem reloadAndReconcileProxies_spec (defs : List ProxyDefinition)
    (st : PoolReconState) :
    (∀ a, (alookup a (reloadAndReconcileProxies defs st).live).isSome = true ↔
        a ∈ defs.map ProxyDefinition.Address)
    ∧ (∀ a ex, alookup a st.live = some ex →
        a ∉ defs.map ProxyDefinition.Address →
        alookup a (reloadAndReconcileProxies defs st).live = none
        ∧ ex.supId ∈ (reloadAndReconcileProxies defs st).cancelled)
    ∧ (∀ a ex d, alookup a st.live = some ex →
        alookup a (newProxiesMap defs) = some d →
        (ex.cfg.Username ≠ d.Username ∨ ex.cfg.Password ≠ d.Password ∨
          equalStringSlices ex.cfg.Tags d.Tags = false ∨
          ex.cfg.Description ≠ d.Description) →
        ∃ n, st.nextSup ≤ n
          ∧ alookup a (reloadAndReconcileProxies defs st).live
              = some ⟨freshProxyConfig d, n⟩
          ∧ ex.supId ∈ (reloadAndReconcileProxies defs st).cancelled)
    ∧ (∀ a d, alookup a st.live = none →
        alookup a (newProxiesMap defs) = some d →
        ∃ n, st.nextSup ≤ n
          ∧ alookup a (reloadAndReconcileProxies defs st).live
              = some ⟨freshProxyConfig d, n⟩)
    ∧ (∀ d, (freshProxyConfig d).IsActive = false
        ∧ (freshProxyConfig d).SuccessCount = 0
        ∧ (freshProxyConfig d).FailCount = 0) := by
  have hmain : reloadAndReconcileProxies defs st
      = (newProxiesMap defs).foldl applyDefinition
          (removeStale (newProxiesMap defs) st) := rfl
  refine ⟨?_, ?_, ?_, ?_, ?_⟩
  · intro a
    rw [hmain, foldl_applyDefinition_lookup_isSome]
    constructor
    · rintro (hs | hm)
      · rw [removeStale_lookup] at hs
        by_cases hnm : (alookup a (newProxiesMap defs)).isSome = true
        · exact (mem_keys_newProxiesMap defs a).mp hnm
        · rw [if_neg hnm] at hs
          cases hs
      · exact (mem_keys_newProxiesMap defs a).mp ((alookup_isSome_iff a _).mpr hm)
    · intro hmem
      exact Or.inr
        ((alookup_isSome_iff a _).mp ((mem_keys_newProxiesMap defs a).mpr hmem))
  · intro a ex hex hnot
    have hnm : alookup a (newProxiesMap defs) = none := by
      cases hv : alookup a (newProxiesMap defs) with
      | none => rfl
      | some d =>
        exact absurd ((mem_keys_newProxiesMap defs a).mp (by rw [hv]; rfl)) hnot
    have hkeys : a ∉ (newProxiesMap defs).map Prod.fst := by
      intro hmem
      have hcon := (alookup_isSome_iff a _).mpr hmem
      rw [hnm] at hcon
      cases hcon
    constructor
    · rw [hmain, foldl_applyDefinition_lookup_notmem _ _ hkeys,
        removeStale_lookup, hnm]
      simp
    · rw [hmain]
      exact foldl_applyDefinition_cancelled_mono _ _
        (removeStale_cancelled_old _ _ hex hnm)
  · intro a ex d hex hnm hch
    have hs1 : alookup a (removeStale (newProxiesMap defs) st).live = some ex := by
      rw [removeStale_lookup, hnm]
      simpa using hex
    obtain ⟨n, hn, hl, hc⟩ := foldl_applyDefinition_restart (newProxiesMap defs)
      (removeStale (newProxiesMap defs) st) a d ex
      (nodup_keys_newProxiesMap defs) (alookup_mem hnm) hs1 hch
    refine ⟨n, hn, ?_, ?_⟩
    · rw [hmain]
      exact hl
    · rw [hmain]
      exact hc
  · intro a d hex hnm
    have hs1 : alookup a (removeStale (newProxiesMap defs) st).live = none := by
      rw [removeStale_lookup, hnm]
      simpa using hex
    obtain ⟨n, hn, hl⟩ := foldl_applyDefinition_add (newProxiesMap defs)
      (removeStale (newProxiesMap defs) st) a d
      (nodup_keys_newProxiesMap defs) (alookup_mem hnm) hs1
    refine ⟨n, hn, ?_⟩
    rw [hmain]
    exact hl
  · intro d
    exact ⟨rfl, rfl, rfl⟩

/-- C1 witness: reconciling the two-record demo state against a snapshot
that rotates `a:1`'s password, drops `b:1` and adds `c:1` — `b:1` is gone
with supervisor 1 cancelled, `a:1` is a fresh zero-counter record under a
new supervisor with supervisor 0 cancelled, and `c:1` is added fresh. -/
theorem reloadAndReconcileProxies_spec_witness :
    (alookup "b:1" (reloadAndReconcileProxies [demoDefA, demoDefC] demoState).live
        = none
      ∧ 1 ∈ (reloadAndReconcileProxies [demoDefA, demoDefC] demoState).cancelled)
    ∧ (∃ n, 2 ≤ n
        ∧ alookup "a:1"
            (reloadAndReconcileProxies [demoDefA, demoDefC] demoState).live
          = some ⟨freshProxyConfig demoDefA, n⟩
        ∧ 0 ∈ (reloadAndReconcileProxies [demoDefA, demoDefC] demoState).cancelled)
    ∧ (∃ n, 2 ≤ n
        ∧ alookup "c:1"
            (reloadAndReconcileProxies [demoDefA, demoDefC] demoState).live
          = some ⟨freshProxyConfig demoDefC, n⟩) := by
  obtain ⟨ha, hb, hc, hd, he⟩ :=
    reloadAndReconcileProxies_spec [demoDefA, demoDefC] demoState
  refine ⟨hb "b:1" demoOldB (by decide) (by decide), ?_, ?_⟩
  · exact hc "a:1" demoOldA demoDefA (by decide) (by decide)
      (Or.inr (Or.inl (by decide)))
  · exact hd "c:1" demoDefC (by decide) (by decide)

/-- C1 counterexample. Reconciling the one-record state for `t:1` (tags
`[x, y]`, counters 3 and 4, active, supervisor 0) against a snapshot whose
only change is the tag list `[x, x]`: the tag lists are not equal as
multisets — so under the spec's tag-equality rule the tags differ and the
frozen claim demands a freshly created record (inactive, zero counters)
under a new supervisor — yet the pass keeps the existing record, merely
overwriting its tags in place: activity, counters, and supervisor 0 are
retained and no supervisor is cancelled. -/
theorem reconcile_tags_multiplicity_counterexample :
    ¬ List.Perm ["x", "y"] ["x", "x"]
    ∧ alookup "t:1" (reloadAndReconcileProxies [demoTagsDef] demoTagsState).live
        = some ⟨⟨"t:1", "u", "p", ["x", "x"], "d", true, 5, 10, 3, 4⟩, 0⟩
    ∧ (reloadAndReconcileProxies [demoTagsDef] demoTagsState).cancelled = [] := by
  refine ⟨by decide, by decide, by decide⟩

end Chameleon
